import Mathlib

/-!
Verification of the arize-mcp analysis/validation/templating core.

This file gives a shallow embedding, in Lean 4, of the pure computational
core of the `arize_mcp` Python package:

* `_validate_trace_id` (src/arize_mcp/tools/traces.py): the regex
  `^[a-fA-F0-9-]{1,64}$` checked with `re.match`.  Python `$` also matches
  just before a trailing newline, which the embedding reproduces.
* `_validate_span_kind` (tools/traces.py, tools/analysis.py).
* `_safe_std` (tools/analysis.py): standard deviation with guards.  The
  underlying `pandas.Series.std` is a parameter `stdFn`; `none` models a
  not-a-number result.
* the `latency_stats` mapping of `analyze_latency` (tools/analysis.py):
  pandas `quantile(q, interpolation="linear")` over the sorted non-missing
  values, plus min/max/mean/median.  Floats are modelled as exact rationals.
* the error-pattern frequency table of `analyze_errors`
  (`value_counts().head(10)`): counts in order of first occurrence, sorted
  by count descending with a stable sort.
* `_format_prompt` and the passthrough path of `run_experiment`
  (tools/datasets.py): Python `str.replace` is modelled character-exactly
  on `List Char`, applied sequentially over the flattened context.
* the WHERE-clause assembly of `filter_spans` (tools/traces.py).
* the one-time tool registration of server.py (`_setup_tools`,
  `get_status`).

Python values flowing through the template engine are modelled by `Val`
(strings, integers, dicts as association lists, None); Python dict order is
the list order.
-/

/-! ### Small string helpers (quote characters built by code point) -/

def squote : String := String.singleton (Char.ofNat 39)

def dquote : String := String.singleton (Char.ofNat 34)

def bslash : String := String.singleton (Char.ofNat 92)

/-! ### `_validate_trace_id` — the regex `^[a-fA-F0-9-]{1,64}$` under `re.match`

A match takes `k` characters of the class `[a-fA-F0-9-]` with `1 ≤ k ≤ 64`
starting at position 0, after which `$` must hold: either we are at the end
of the string, or at the position just before a final newline. -/

def isHexHyphen (c : Char) : Bool :=
  (decide ('0' ≤ c) && decide (c ≤ '9')) ||
  (decide ('a' ≤ c) && decide (c ≤ 'f')) ||
  (decide ('A' ≤ c) && decide (c ≤ 'F')) ||
  (c == '-')

def traceIdMatch (s : List Char) : Bool :=
  (List.range 64).any (fun j =>
    decide (j + 1 ≤ s.length) && (s.take (j + 1)).all isHexHyphen &&
      (decide (j + 1 = s.length) ||
        (decide (j + 1 + 1 = s.length) && (s.getD (j + 1) ' ' == Char.ofNat 10))))

def _validate_trace_id (s : String) : Bool := traceIdMatch s.data

/-- The string with at most one trailing newline removed (used to state the
amended characterisation of `_validate_trace_id`). -/
def stripTrailingNewline (s : List Char) : List Char :=
  if s.getLast? = some (Char.ofNat 10) then s.dropLast else s

/-! ### `_validate_span_kind` -/

def VALID_SPAN_KINDS : List String :=
  ["LLM", "CHAIN", "RETRIEVER", "TOOL", "EMBEDDING", "AGENT"]

def strUpper (s : String) : String := String.mk (s.data.map Char.toUpper)

def _validate_span_kind (span_kind : String) : Bool :=
  VALID_SPAN_KINDS.contains (strUpper span_kind)

/-! ### Python `str.replace` and `in`, character-exactly on `List Char`

`replFuel` is `str.replace` with an explicit fuel so that the recursion is
structural (the fuel `s.length` always suffices for a non-empty pattern);
`replaceAll pat rep s` replaces every non-overlapping occurrence of `pat`
in `s`, scanning left to right.  `hasSubstring pat s` is Python
`pat in s`. -/

def replFuel (pat rep : List Char) : Nat → List Char → List Char
  | 0, s => s
  | _ + 1, [] => []
  | n + 1, c :: rest =>
    if pat.isPrefixOf (c :: rest) then
      rep ++ replFuel pat rep n ((c :: rest).drop pat.length)
    else
      c :: replFuel pat rep n rest

def replaceAll (pat rep s : List Char) : List Char :=
  replFuel pat rep s.length s

def hasSubstring (pat : List Char) : List Char → Bool
  | [] => pat.isEmpty
  | c :: rest => pat.isPrefixOf (c :: rest) || hasSubstring pat rest

/-! ### Python values for the template engine -/

inductive Val where
  | vnull : Val
  | vstr : String → Val
  | vnum : Int → Val
  | vdict : List (String × Val) → Val

/-- Python truthiness for the modelled values. -/
def truthy : Val → Bool
  | Val.vnull => false
  | Val.vstr s => !(s == "")
  | Val.vnum n => !(n == 0)
  | Val.vdict d => !(d.isEmpty)

mutual

/-- Python `repr` of a value (dicts print with single-quoted keys/strings). -/
def pyRepr : Val → String
  | Val.vnull => "None"
  | Val.vstr s => squote ++ s ++ squote
  | Val.vnum n => toString n
  | Val.vdict d => "\x7b" ++ pyReprEntries d ++ "\x7d"

def pyReprEntries : List (String × Val) → String
  | [] => ""
  | [kv] => squote ++ kv.1 ++ squote ++ ": " ++ pyRepr kv.2
  | kv :: rest =>
      squote ++ kv.1 ++ squote ++ ": " ++ pyRepr kv.2 ++ ", " ++ pyReprEntries rest

end

/-- Python `str()` of a value. -/
def pyStr : Val → String
  | Val.vnull => "None"
  | Val.vstr s => s
  | Val.vnum n => toString n
  | Val.vdict d => pyRepr (Val.vdict d)

def jsonEscChar (c : Char) : String :=
  if c = Char.ofNat 34 then bslash ++ dquote
  else if c = Char.ofNat 92 then bslash ++ bslash
  else if c = Char.ofNat 10 then bslash ++ "n"
  else if c = Char.ofNat 13 then bslash ++ "r"
  else if c = Char.ofNat 9 then bslash ++ "t"
  else String.singleton c

def jsonEscape (s : String) : String := String.join (s.data.map jsonEscChar)

mutual

/-- `json.dumps` of a value (default separators). -/
def jsonVal : Val → String
  | Val.vnull => "null"
  | Val.vstr s => dquote ++ jsonEscape s ++ dquote
  | Val.vnum n => toString n
  | Val.vdict d => "\x7b" ++ jsonEntries d ++ "\x7d"

def jsonEntries : List (String × Val) → String
  | [] => ""
  | [kv] => dquote ++ jsonEscape kv.1 ++ dquote ++ ": " ++ jsonVal kv.2
  | kv :: rest =>
      dquote ++ jsonEscape kv.1 ++ dquote ++ ": " ++ jsonVal kv.2 ++ ", " ++
        jsonEntries rest

end

/-- The replacement text for a resolved placeholder:
`json.dumps(value) if isinstance(value, dict) else str(value)`. -/
def strForm : Val → String
  | Val.vdict d => jsonVal (Val.vdict d)
  | v => pyStr v

/-! ### `_format_prompt` (tools/datasets.py)

Examples are dict-like (`__getitem__` access); a missing key yields
`None`.  The context holds `input`, `output`, `metadata`, `id`,
`dataset_row` in insertion order, dict values additionally flattened one
level as `key.subkey`; then each placeholder `{key}` present in the
accumulated string is replaced, in context order. -/

def lookupVal (ex : List (String × Val)) (k : String) : Val :=
  match List.lookup k ex with
  | some v => v
  | none => Val.vnull

def buildContext (ex : List (String × Val)) : List (String × Val) :=
  [("input",
     match lookupVal ex "input" with
     | Val.vnull => Val.vdict []
     | v => v),
   ("output",
     match lookupVal ex "output" with
     | Val.vnull => Val.vdict []
     | v => v),
   ("metadata",
     if truthy (lookupVal ex "metadata") then lookupVal ex "metadata"
     else Val.vdict []),
   ("id",
     Val.vstr (if truthy (lookupVal ex "id") then pyStr (lookupVal ex "id")
       else "")),
   ("dataset_row", Val.vdict ex)]

def flattenContext : List (String × Val) → List (String × Val)
  | [] => []
  | (k, v) :: rest =>
    (k, v) ::
      ((match v with
        | Val.vdict d => d.map (fun kv => (k ++ "." ++ kv.1, kv.2))
        | _ => []) ++ flattenContext rest)

def _format_prompt (template : String) (ex : List (String × Val)) : String :=
  String.mk ((flattenContext (buildContext ex)).foldl
    (fun res kv =>
      if hasSubstring ('{' :: kv.1.data ++ ['}']) res then
        replaceAll ('{' :: kv.1.data ++ ['}']) ((strForm kv.2).data) res
      else res)
    template.data)

/-- The flattened context with keys and replacement texts as raw character
lists, in substitution order. -/
def flatPairs (ex : List (String × Val)) : List (List Char × List Char) :=
  (flattenContext (buildContext ex)).map
    (fun kv => (kv.1.data, (strForm kv.2).data))

/-! ### Specification-side view of a template: literal segments and
placeholders.  `substTemplate` is simultaneous substitution as the spec
describes it: each `{key}` that resolves in the context is replaced by its
replacement text, unresolved placeholders stay verbatim. -/

inductive TPiece where
  | lit : List Char → TPiece
  | hole : List Char → TPiece
deriving DecidableEq

def renderPiece : TPiece → List Char
  | TPiece.lit s => s
  | TPiece.hole k => '{' :: k ++ ['}']

def renderTemplate (ps : List TPiece) : List Char := (ps.map renderPiece).flatten

def substTemplate (ctx : List (List Char × List Char)) (ps : List TPiece) : List Char :=
  (ps.map (fun p =>
    match p with
    | TPiece.lit s => s
    | TPiece.hole k =>
      match List.lookup k ctx with
      | some v => v
      | none => '{' :: k ++ ['}'])).flatten

/-- Effect of one sequential replacement pass on the piece view. -/
def stepP (k rep : List Char) : TPiece → TPiece
  | TPiece.hole h => if h = k then TPiece.lit rep else TPiece.hole h
  | p => p

/-- A literal segment that opens no placeholder. -/
def litOK (s : List Char) : Bool := s.all (fun c => c != '{')

/-- A placeholder key without braces. -/
def keyOK (k : List Char) : Bool := k.all (fun c => c != '{' && c != '}')

/-- Sequential replacement, one context entry after the other (the loop body
of `_format_prompt` without the redundant membership guard). -/
def seqSubst (ctx : List (List Char × List Char)) (s : List Char) : List Char :=
  ctx.foldl (fun acc kv => replaceAll ('{' :: kv.1 ++ ['}']) kv.2 acc) s

/-! ### `run_experiment` (tools/datasets.py), credential check and task

`envKey` models `os.environ.get("OPENAI_API_KEY")`; `modelCall` models one
chat-completion round trip.  The SDK experiment runner applies the task to
each processed dataset example in order. -/

def run_experiment_core (passthrough : Bool) (openai_api_key envKey : Option String)
    (prompt_template : String) (examples : List (List (String × Val)))
    (modelCall : String → String) : Except String (List String) :=
  let resolved : Option String :=
    match openai_api_key with
    | some k => if k = "" then envKey else some k
    | none => envKey
  if !passthrough && (resolved = none || resolved = some "") then
    Except.error "API key required"
  else
    Except.ok (examples.map (fun ex =>
      if passthrough then _format_prompt prompt_template ex
      else modelCall (_format_prompt prompt_template ex)))

/-! ### Statistics: pandas linear-interpolation quantiles over exact rationals -/

def sortAsc (xs : List ℚ) : List ℚ := List.insertionSort (· ≤ ·) xs

/-- Floor of a non-negative rational, computed by integer division. -/
def natFloor (q : ℚ) : ℕ := q.num.toNat / q.den

/-- The fractional position `q * (n - 1)` used by linear interpolation. -/
def posOf (ys : List ℚ) (p : ℚ) : ℚ := p * ((ys.length : ℚ) - 1)

def idxOfPos (ys : List ℚ) (p : ℚ) : ℕ := natFloor (posOf ys p)

/-- `Series.quantile(p, interpolation="linear")` on an already sorted list. -/
def interpAt (ys : List ℚ) (p : ℚ) : ℚ :=
  if idxOfPos ys p + 1 < ys.length then
    ys.getD (idxOfPos ys p) 0 +
      (posOf ys p - (idxOfPos ys p : ℚ)) *
        (ys.getD (idxOfPos ys p + 1) 0 - ys.getD (idxOfPos ys p) 0)
  else ys.getD (ys.length - 1) 0

def quantileLinear (xs : List ℚ) (p : ℚ) : ℚ := interpAt (sortAsc xs) p

/-- `_safe_std` (tools/analysis.py).  `stdFn` stands for
`pandas.Series.std`; a `none` result models a not-a-number value.  The
Python function returns a float; `Option ℚ` is that float domain with
`none` as NaN, so the function returning `some _` everywhere is the
"never NaN" guarantee. -/
def _safe_std (stdFn : List ℚ → Option ℚ) (series : List ℚ) : Option ℚ :=
  if series.length ≤ 1 then some 0
  else
    match stdFn series with
    | none => some 0
    | some v => some v

structure LatencyStats where
  min_ms : ℚ
  max_ms : ℚ
  mean_ms : ℚ
  median_ms : ℚ
  std_ms : Option ℚ
  p50_ms : ℚ
  p75_ms : ℚ
  p90_ms : ℚ
  p95_ms : ℚ
  p99_ms : ℚ

/-- The `latency_stats` mapping of `analyze_latency` over the non-missing
latency values `xs`. -/
def latencyStats (stdFn : List ℚ → Option ℚ) (xs : List ℚ) : LatencyStats :=
  { min_ms := (sortAsc xs).getD 0 0
    max_ms := (sortAsc xs).getD ((sortAsc xs).length - 1) 0
    mean_ms := xs.sum / (xs.length : ℚ)
    median_ms := quantileLinear xs (1 / 2)
    std_ms := _safe_std stdFn xs
    p50_ms := quantileLinear xs (1 / 2)
    p75_ms := quantileLinear xs (3 / 4)
    p90_ms := quantileLinear xs (9 / 10)
    p95_ms := quantileLinear xs (19 / 20)
    p99_ms := quantileLinear xs (99 / 100) }

/-! ### `value_counts().head(10)` — the error-pattern frequency table -/

/-- Distinct values in order of first occurrence. -/
def dedupFirst : List String → List String
  | [] => []
  | m :: t => m :: (dedupFirst t).filter (fun y => y != m)

/-- Each distinct value with its number of occurrences, in order of first
occurrence. -/
def firstCounts (msgs : List String) : List (String × Nat) :=
  (dedupFirst msgs).map (fun v => (v, msgs.count v))

/-- Insert after all entries with a count at least as large (stable
descending insertion). -/
def insertDesc (p : String × Nat) : List (String × Nat) → List (String × Nat)
  | [] => [p]
  | q :: t => if q.2 < p.2 then p :: q :: t else q :: insertDesc p t

def sortDescStable (l : List (String × Nat)) : List (String × Nat) :=
  l.foldl (fun acc p => insertDesc p acc) []

/-- The `error_patterns` list of `analyze_errors`:
`value_counts().head(10)` as message/count pairs. -/
def error_patterns (msgs : List String) : List (String × Nat) :=
  (sortDescStable (firstCounts msgs)).take 10

/-! ### Tool-level results (the shapes of the returned dictionaries) -/

inductive AEResult where
  | empty : Nat → Int → String → AEResult
  | result : Nat → Int → Option (List (String × Nat)) → List (Option String) → AEResult

/-- `analyze_errors` over the exported error rows (the message column;
`none` is a missing value).  `hasErrCol` states whether a message column
was found. -/
def analyze_errors_core (df : List (Option String)) (hasErrCol : Bool)
    (days : Int) (limit : Nat) : AEResult :=
  if df.isEmpty then
    AEResult.empty 0 days "No errors found in the specified time range"
  else
    AEResult.result df.length days
      (if hasErrCol then some (error_patterns (df.filterMap id)) else none)
      (df.take limit)

inductive ALResult where
  | empty : Nat → Int → String → ALResult
  | stats : Nat → Int → LatencyStats → ALResult

/-- `analyze_latency` over the latency column (`none` is a missing value,
dropped before computing statistics). -/
def analyze_latency_core (stdFn : List ℚ → Option ℚ) (df : List (Option ℚ))
    (days : Int) : ALResult :=
  if df.isEmpty then
    ALResult.empty 0 days "No spans found in the specified time range"
  else
    ALResult.stats df.length days (latencyStats stdFn (df.filterMap id))

structure TraceRow where
  trace_id : Option String
  span_kind : Option String
  status_code : Option String
  tokens : Option ℚ

/-- Python `int()` truncation toward zero. -/
def truncQ (q : ℚ) : Int :=
  if 0 ≤ q then q.num / (q.den : Int) else -((-q).num / ((-q).den : Int))

inductive TSResult where
  | empty : Nat → Int → String → TSResult
  | stats : Nat → Nat → List (String × Nat) → List (String × Nat) →
      Option (Int × ℚ × Int) → Int → TSResult

/-- `get_trace_statistics`: total spans, distinct traces, breakdowns by
span kind and status, token usage when a token column has values. -/
def get_trace_statistics_core (df : List TraceRow) (days : Int) : TSResult :=
  if df.isEmpty then
    TSResult.empty 0 days "No spans found in the specified time range"
  else
    let toks := df.filterMap (fun r => r.tokens)
    TSResult.stats df.length
      (dedupFirst (df.filterMap (fun r => r.trace_id))).length
      (sortDescStable (firstCounts (df.filterMap (fun r => r.span_kind))))
      (sortDescStable (firstCounts (df.filterMap (fun r => r.status_code))))
      (if toks.isEmpty then none
       else some (truncQ toks.sum, toks.sum / (toks.length : ℚ),
         truncQ ((sortAsc toks).getD ((sortAsc toks).length - 1) 0)))
      days

/-! ### `filter_spans` WHERE-clause assembly (tools/traces.py) -/

def errConds : Option Bool → List String
  | some true => ["status_code = " ++ squote ++ "ERROR" ++ squote]
  | some false => ["status_code != " ++ squote ++ "ERROR" ++ squote]
  | none => []

def mkWhere (conds : List String) : Option String :=
  if conds.isEmpty then none else some (String.intercalate " AND " conds)

/-- The WHERE clause `filter_spans` sends upstream, or the validation
error.  Python truthiness: empty strings count as absent. -/
def filter_spans_where (w : Option String) (span_kind : Option String)
    (has_error : Option Bool) : Except String (Option String) :=
  let wconds : List String :=
    match w with
    | some s => if s = "" then [] else [s]
    | none => []
  match span_kind with
  | some k =>
    if k = "" then Except.ok (mkWhere (wconds ++ errConds has_error))
    else if _validate_span_kind k then
      Except.ok (mkWhere (wconds ++
        ["span_kind = " ++ squote ++ strUpper k ++ squote] ++ errConds has_error))
    else Except.error ("Invalid span_kind: " ++ k)
  | none => Except.ok (mkWhere (wconds ++ errConds has_error))

/-! ### server.py: one-time tool registration and `get_status` -/

def normalToolNames : List String :=
  ["list_projects", "get_model_schema",
   "export_traces", "get_trace", "filter_spans",
   "list_datasets", "get_dataset", "create_dataset", "delete_dataset",
   "list_experiments", "get_experiment", "run_experiment",
   "analyze_errors", "analyze_latency", "get_trace_statistics"]

structure ServerState where
  initialized : Bool
  init_error : Option String
  tools : List String

def initialServerState : ServerState :=
  { initialized := false, init_error := none, tools := [] }

def _register_error_tool (s : ServerState) : ServerState :=
  { s with tools := s.tools ++ ["get_status"] }

/-- `_setup_tools`: `setup` is the outcome of loading the configuration and
building the clients (`Except.error e` models a raised exception with
message `e`). -/
def _setup_tools (setup : Except String Unit) (s : ServerState) : ServerState :=
  if s.initialized then s
  else
    match setup with
    | Except.ok _ =>
      { s with initialized := true, tools := s.tools ++ normalToolNames }
    | Except.error e =>
      _register_error_tool { s with initialized := true, init_error := some e }

inductive StatusReply where
  | okStatus : StatusReply
  | errorStatus : String → String → StatusReply

def get_status (s : ServerState) : StatusReply :=
  match s.init_error with
  | some e =>
    StatusReply.errorStatus e
      "Check your ARIZE_API_KEY and ARIZE_SPACE_ID environment variables."
  | none => StatusReply.okStatus

/-! ## Theorems -/

/-! ### C4: span-kind validation -/

/-- C4: `validate_span_kind(s)` returns true iff the uppercased form of `s`
is a member of the fixed set LLM/CHAIN/RETRIEVER/TOOL/EMBEDDING/AGENT; in
particular `validate_span_kind("llm")` is true and
`validate_span_kind("unknown")` is false. -/
theorem claim_C4_span_kind_allowlist :
    (∀ s, _validate_span_kind s = true ↔ strUpper s ∈ VALID_SPAN_KINDS) ∧
      _validate_span_kind "llm" = true ∧ _validate_span_kind "unknown" = false := by
  refine ⟨fun s => ?_, by decide, by decide⟩
  unfold _validate_span_kind
  exact List.elem_iff

/-- Witness for C4 at the concrete inputs named in the claim. -/
theorem claim_C4_witness :
    _validate_span_kind "llm" = true ∧ _validate_span_kind "unknown" = false :=
  ⟨claim_C4_span_kind_allowlist.2.1, claim_C4_span_kind_allowlist.2.2⟩

/-! ### C3: `_safe_std` guards -/

/-- C3: the `std_ms` value equals `0.0` whenever the series has fewer than 2
values or the underlying standard deviation is not-a-number (`none`), and it
is never NaN (`none`) itself. -/
theorem claim_C3_safe_std_guard (stdFn : List ℚ → Option ℚ) (series : List ℚ) :
    ((series.length < 2 ∨ stdFn series = none) → _safe_std stdFn series = some 0) ∧
      _safe_std stdFn series ≠ none := by
  constructor
  · intro h
    unfold _safe_std
    rcases h with h | h
    · rw [if_pos (by omega)]
    · by_cases hl : series.length ≤ 1
      · rw [if_pos hl]
      · rw [if_neg hl, h]
  · unfold _safe_std
    split
    · simp
    · split <;> simp

/-- Witness for C3: a one-element series with a NaN-returning std. -/
theorem claim_C3_witness :
    _safe_std (fun _ => none) [(5 : ℚ)] = some 0 ∧
      _safe_std (fun _ => none) [(5 : ℚ)] ≠ none :=
  ⟨(claim_C3_safe_std_guard (fun _ => none) [(5 : ℚ)]).1 (Or.inl (by decide)),
    (claim_C3_safe_std_guard (fun _ => none) [(5 : ℚ)]).2⟩

/-! ### C5: passthrough experiments need no credential -/

/-- C5: `run_experiment` with `passthrough=True` never returns the
missing-credential error, regardless of the supplied or environment API
key; it returns one result row per processed dataset example whose output
is the formatted prompt, and the result does not depend on the model-call
function (no model call is made). -/
theorem claim_C5_passthrough_no_credential (openai_api_key envKey : Option String)
    (prompt_template : String) (examples : List (List (String × Val)))
    (modelCall modelCall2 : String → String) :
    run_experiment_core true openai_api_key envKey prompt_template examples modelCall =
        Except.ok (examples.map (fun ex => _format_prompt prompt_template ex)) ∧
      (∀ msg, run_experiment_core true openai_api_key envKey prompt_template examples
          modelCall ≠ Except.error msg) ∧
      run_experiment_core true openai_api_key envKey prompt_template examples modelCall =
        run_experiment_core true openai_api_key envKey prompt_template examples
          modelCall2 := by
  refine ⟨?_, ?_, ?_⟩ <;> simp [run_experiment_core]

/-- Witness for C5 at a concrete dataset example, with no key anywhere. -/
theorem claim_C5_witness :
    run_experiment_core true none none "Hi \x7binput\x7d" [[("input", Val.vstr "Q")]]
      (fun _ => "MODEL") = Except.ok ["Hi Q"] := by
  have h := (claim_C5_passthrough_no_credential none none "Hi \x7binput\x7d"
    [[("input", Val.vstr "Q")]] (fun _ => "MODEL") (fun _ => "MODEL")).1
  rw [h, show List.map (fun ex => _format_prompt "Hi \x7binput\x7d" ex)
    [[("input", Val.vstr "Q")]] = ["Hi Q"] from by decide]

/-! ### C8: empty upstream tables -/

/-- C8: for each aggregate operation, an empty upstream table yields the
zero-count result object carrying an explanatory message (the `empty`
constructor holds no statistics, so no statistics computation happens). -/
theorem claim_C8_empty_table_zero_results (stdFn : List ℚ → Option ℚ) (days : Int)
    (limit : Nat) (hasErrCol : Bool) :
    analyze_errors_core [] hasErrCol days limit =
        AEResult.empty 0 days "No errors found in the specified time range" ∧
      analyze_latency_core stdFn [] days =
        ALResult.empty 0 days "No spans found in the specified time range" ∧
      get_trace_statistics_core [] days =
        TSResult.empty 0 days "No spans found in the specified time range" :=
  ⟨rfl, rfl, rfl⟩

/-! ### C9: `filter_spans` sends the caller's `where` text verbatim -/

/-- C9: with a non-empty `where` argument and a validated (or absent)
`span_kind`, the predicate sent upstream is the `" AND "`-join of the
conditions with the caller's `where` string included verbatim as the first
conjunct; the `where` text itself undergoes no validation. -/
theorem claim_C9_where_verbatim (w : String) (span_kind : Option String)
    (has_error : Option Bool) (hw : w ≠ "")
    (hsk : ∀ k, span_kind = some k → _validate_span_kind k = true) :
    filter_spans_where (some w) span_kind has_error =
      Except.ok (some (String.intercalate " AND "
        (w :: ((match span_kind with
                | some k => ["span_kind = " ++ squote ++ strUpper k ++ squote]
                | none => []) ++ errConds has_error)))) := by
  cases span_kind with
  | none => simp [filter_spans_where, mkWhere, hw]
  | some k =>
    have hv := hsk k rfl
    have hk : k ≠ "" := by
      intro h
      rw [h, show _validate_span_kind "" = false from by decide] at hv
      cases hv
    simp [filter_spans_where, mkWhere, hw, hk, hv]

/-- Witness for C9: a free-text predicate passes through verbatim next to a
validated span-kind condition and the error condition. -/
theorem claim_C9_witness :
    filter_spans_where (some "attributes.llm.token_count.total > 1000") (some "llm")
        (some true) =
      Except.ok (some (String.intercalate " AND "
        ("attributes.llm.token_count.total > 1000" ::
          (["span_kind = " ++ squote ++ strUpper "llm" ++ squote] ++
            errConds (some true))))) := by
  exact claim_C9_where_verbatim "attributes.llm.token_count.total > 1000" (some "llm")
    (some true) (by decide) (by intro k hk; cases hk; decide)

/-! ### C10: `get_status` is only reachable in the error state -/

/-- C10: starting from the fresh server state, the `get_status` tool is
registered only on the initialization-failure path; whenever it is
invocable the initialization error is set, `get_status` returns the
structured error object, and its ok branch is unreachable. -/
theorem claim_C10_get_status_error_only (setup : Except String Unit)
    (h : "get_status" ∈ (_setup_tools setup initialServerState).tools) :
    ∃ e, (_setup_tools setup initialServerState).init_error = some e ∧
      get_status (_setup_tools setup initialServerState) =
        StatusReply.errorStatus e
          "Check your ARIZE_API_KEY and ARIZE_SPACE_ID environment variables." ∧
      get_status (_setup_tools setup initialServerState) ≠ StatusReply.okStatus := by
  cases setup with
  | ok u =>
    cases u
    exact absurd h (by decide)
  | error e =>
    exact ⟨e, rfl, rfl, fun hcon => StatusReply.noConfusion hcon⟩

/-- Witness for C10 at a concrete failed initialization. -/
theorem claim_C10_witness :
    ∃ e, (_setup_tools (Except.error "boom") initialServerState).init_error = some e ∧
      get_status (_setup_tools (Except.error "boom") initialServerState) =
        StatusReply.errorStatus e
          "Check your ARIZE_API_KEY and ARIZE_SPACE_ID environment variables." ∧
      get_status (_setup_tools (Except.error "boom") initialServerState) ≠
        StatusReply.okStatus :=
  claim_C10_get_status_error_only (Except.error "boom") (by decide)

/-! ### C2: trace-id validation -/

/-- Counterexample to C2 as stated: `"ab\n"` contains a character outside
the class `[a-fA-F0-9-]`, yet `_validate_trace_id` accepts it, because
Python `$` also matches just before a trailing newline. -/
theorem claim_C2_counterexample :
    _validate_trace_id "ab\n" = true ∧
      ¬ (∀ c ∈ "ab\n".data, isHexHyphen c = true) :=
  ⟨by decide, by decide⟩

/-- C2 (amended): `_validate_trace_id` accepts a string iff, after removing
at most one trailing newline, the remainder is non-empty, at most 64
characters long, and consists solely of hexadecimal digits and hyphens.
(Quote characters, angle brackets and every other character outside the
class are still rejected everywhere; only one final newline slips through.) -/
theorem claim_C2_amended_trace_id (s : List Char) :
    traceIdMatch s = true ↔
      (stripTrailingNewline s ≠ [] ∧ (stripTrailingNewline s).length ≤ 64 ∧
        (stripTrailingNewline s).all isHexHyphen = true) := by
  constructor
  · intro h
    rw [traceIdMatch, List.any_eq_true] at h
    obtain ⟨j, hj, hcond⟩ := h
    rw [List.mem_range] at hj
    simp only [Bool.and_eq_true, Bool.or_eq_true, decide_eq_true_eq, beq_iff_eq] at hcond
    obtain ⟨⟨hk, hall⟩, hend⟩ := hcond
    rcases hend with hend | ⟨hend, hnl⟩
    · -- the match consumes the whole string: no trailing newline possible
      have hs : s.take (j + 1) = s := by rw [hend]; exact List.take_length s
      rw [hs] at hall
      have hpos : 0 < s.length := by omega
      have hnonil : s ≠ [] := List.ne_nil_of_length_pos hpos
      have hstrip : stripTrailingNewline s = s := by
        rw [stripTrailingNewline, if_neg]
        intro hlast
        rcases List.eq_nil_or_concat s with hnil | ⟨L, b, hLb⟩
        · exact hnonil hnil
        · rw [List.concat_eq_append] at hLb
          rw [hLb, List.getLast?_concat] at hlast
          have hb : b = Char.ofNat 10 := Option.some.inj hlast
          have hmem : b ∈ s := by
            rw [hLb]
            exact List.mem_append_right L (by simp)
          have hbh := List.all_eq_true.mp hall b hmem
          rw [hb] at hbh
          exact absurd hbh (by decide)
      rw [hstrip]
      exact ⟨hnonil, by omega, hall⟩
    · -- the match stops just before a final newline
      have hklen : (s.take (j + 1)).length = j + 1 := by
        rw [List.length_take]; omega
      have hdl : (s.drop (j + 1)).length = 1 := by rw [List.length_drop]; omega
      obtain ⟨b, hb⟩ := List.length_eq_one.mp hdl
      obtain ⟨X, hX, hXlen, hXall⟩ :
          ∃ X, s = X ++ [b] ∧ X.length = j + 1 ∧ X.all isHexHyphen = true :=
        ⟨s.take (j + 1), by rw [← hb]; exact (List.take_append_drop _ s).symm,
          hklen, hall⟩
      have hgetd : s.getD (j + 1) ' ' = b := by
        rw [hX, ← hXlen, List.getD_eq_getElem?_getD, List.getElem?_concat_length]
        rfl
      have hbnl : b = Char.ofNat 10 := hgetd.symm.trans hnl
      have hlast : s.getLast? = some (Char.ofNat 10) := by
        rw [hX, List.getLast?_concat, hbnl]
      have hstrip : stripTrailingNewline s = X := by
        rw [stripTrailingNewline, if_pos hlast, hX]
        exact List.dropLast_concat
      rw [hstrip]
      exact ⟨List.ne_nil_of_length_pos (by omega), by omega, hXall⟩
  · rintro ⟨hne, hlen, hall⟩
    rw [traceIdMatch, List.any_eq_true]
    by_cases hlast : s.getLast? = some (Char.ofNat 10)
    · rcases List.eq_nil_or_concat s with hnil | ⟨L, b, hLb⟩
      · rw [hnil] at hlast; simp at hlast
      · rw [List.concat_eq_append] at hLb
        have hbnl : b = Char.ofNat 10 := by
          rw [hLb, List.getLast?_concat] at hlast
          exact Option.some.inj hlast
        have hstrip : stripTrailingNewline s = L := by
          rw [stripTrailingNewline, if_pos hlast, hLb]
          exact List.dropLast_concat
        rw [hstrip] at hne hlen hall
        have hL1 : 1 ≤ L.length := by
          have := List.length_pos.mpr hne; omega
        refine ⟨L.length - 1, List.mem_range.mpr (by omega), ?_⟩
        have hk : L.length - 1 + 1 = L.length := by omega
        have hslen : s.length = L.length + 1 := by
          rw [hLb, List.length_append]; rfl
        have htake : s.take L.length = L := by
          rw [hLb]; exact List.take_left L [b]
        have hgd : s.getD L.length ' ' = b := by
          rw [hLb, List.getD_eq_getElem?_getD, List.getElem?_concat_length]
          rfl
        simp only [Bool.and_eq_true, Bool.or_eq_true, decide_eq_true_eq, beq_iff_eq, hk]
        exact ⟨⟨by omega, by rw [htake]; exact hall⟩,
          Or.inr ⟨by omega, by rw [hgd, hbnl]⟩⟩
    · have hstrip : stripTrailingNewline s = s := by
        rw [stripTrailingNewline, if_neg hlast]
      rw [hstrip] at hne hlen hall
      have h1 : 1 ≤ s.length := by
        have := List.length_pos.mpr hne; omega
      refine ⟨s.length - 1, List.mem_range.mpr (by omega), ?_⟩
      have hk : s.length - 1 + 1 = s.length := by omega
      simp only [Bool.and_eq_true, Bool.or_eq_true, decide_eq_true_eq, beq_iff_eq, hk]
      exact ⟨⟨by simp, by rw [List.take_length]; exact hall⟩, Or.inl trivial⟩

/-- Witness for C2: the spec's UUID example is accepted (via the amended
theorem) and the SQL-injection example is rejected. -/
theorem claim_C2_witness :
    _validate_trace_id "550e8400-e29b-41d4-a716-446655440000" = true ∧
      _validate_trace_id (squote ++ "; DROP TABLE--") = false :=
  ⟨(claim_C2_amended_trace_id "550e8400-e29b-41d4-a716-446655440000".data).mpr
      (by decide),
    by decide⟩

/-! ### C7: error-pattern frequency table -/

theorem mem_dedupFirst {x : String} : ∀ {l : List String}, x ∈ dedupFirst l ↔ x ∈ l := by
  intro l
  induction l with
  | nil => simp [dedupFirst]
  | cons m t ih =>
    simp only [dedupFirst, List.mem_cons, List.mem_filter, ih, bne_iff_ne, ne_eq]
    by_cases hxm : x = m
    · simp [hxm]
    · simp [hxm]

theorem dedupFirst_pairwise_indexOf :
    ∀ l : List String, (dedupFirst l).Pairwise (fun x y => l.indexOf x < l.indexOf y) := by
  intro l
  induction l with
  | nil => simp [dedupFirst]
  | cons m t ih =>
    rw [dedupFirst]
    refine List.Pairwise.cons ?_ ?_
    · intro y hy
      rw [List.mem_filter] at hy
      have hym : y ≠ m := by simpa [bne_iff_ne] using hy.2
      rw [List.indexOf_cons_self, List.indexOf_cons_ne _ (Ne.symm hym)]
      exact Nat.succ_pos _
    · have h2 := ih.filter (fun y => y != m)
      refine h2.imp_of_mem ?_
      intro a b ha hb hr
      have ham : a ≠ m := by
        rw [List.mem_filter] at ha
        simpa [bne_iff_ne] using ha.2
      have hbm : b ≠ m := by
        rw [List.mem_filter] at hb
        simpa [bne_iff_ne] using hb.2
      rw [List.indexOf_cons_ne _ (Ne.symm ham), List.indexOf_cons_ne _ (Ne.symm hbm)]
      exact Nat.succ_lt_succ hr

theorem firstCounts_pairwise (msgs : List String) :
    (firstCounts msgs).Pairwise (fun a b => msgs.indexOf a.1 < msgs.indexOf b.1) := by
  rw [firstCounts, List.pairwise_map]
  exact dedupFirst_pairwise_indexOf msgs

theorem mem_insertDesc {p q : String × Nat} :
    ∀ {l : List (String × Nat)}, q ∈ insertDesc p l ↔ q = p ∨ q ∈ l := by
  intro l
  induction l with
  | nil => simp [insertDesc]
  | cons r t ih =>
    rw [insertDesc]
    by_cases h : r.2 < p.2
    · rw [if_pos h]
      simp [List.mem_cons]
    · rw [if_neg h]
      simp only [List.mem_cons, ih]
      tauto

theorem insertDesc_pairwise (T : (String × Nat) → (String × Nat) → Prop)
    (p : String × Nat) :
    ∀ l : List (String × Nat),
      l.Pairwise (fun a b => b.2 < a.2 ∨ (b.2 = a.2 ∧ T a b)) → (∀ q ∈ l, T q p) →
      (insertDesc p l).Pairwise (fun a b => b.2 < a.2 ∨ (b.2 = a.2 ∧ T a b)) := by
  intro l
  induction l with
  | nil =>
    intro _ _
    simp [insertDesc]
  | cons q t ih =>
    intro hl hT
    rw [insertDesc]
    by_cases h : q.2 < p.2
    · rw [if_pos h]
      refine List.Pairwise.cons ?_ hl
      intro x hx
      rcases List.mem_cons.mp hx with rfl | hx'
      · exact Or.inl h
      · have hqx := (List.pairwise_cons.mp hl).1 x hx'
        rcases hqx with h1 | h1
        · exact Or.inl (by omega)
        · obtain ⟨h1, -⟩ := h1
          exact Or.inl (by omega)
    · rw [if_neg h]
      obtain ⟨hq, ht⟩ := List.pairwise_cons.mp hl
      refine List.Pairwise.cons ?_ (ih ht (fun r hr => hT r (List.mem_cons_of_mem q hr)))
      intro y hy
      rcases mem_insertDesc.mp hy with rfl | hy'
      · rcases Nat.lt_or_ge y.2 q.2 with h1 | h2
        · exact Or.inl h1
        · have hpq : y.2 = q.2 := by omega
          exact Or.inr ⟨hpq, hT q (List.mem_cons_self q t)⟩
      · exact hq y hy'

theorem foldl_insertDesc_pairwise (T : (String × Nat) → (String × Nat) → Prop) :
    ∀ (l acc : List (String × Nat)),
      acc.Pairwise (fun a b => b.2 < a.2 ∨ (b.2 = a.2 ∧ T a b)) → l.Pairwise T →
      (∀ a ∈ acc, ∀ b ∈ l, T a b) →
      (l.foldl (fun acc p => insertDesc p acc) acc).Pairwise
        (fun a b => b.2 < a.2 ∨ (b.2 = a.2 ∧ T a b)) := by
  intro l
  induction l with
  | nil =>
    intro acc h _ _
    exact h
  | cons p t ih =>
    intro acc hacc hl hcross
    rw [List.foldl_cons]
    apply ih
    · exact insertDesc_pairwise T p acc hacc
        (fun q hq => hcross q hq p (List.mem_cons_self p t))
    · exact (List.pairwise_cons.mp hl).2
    · intro a ha b hb
      rcases mem_insertDesc.mp ha with rfl | ha'
      · exact (List.pairwise_cons.mp hl).1 b hb
      · exact hcross a ha' b (List.mem_cons_of_mem p hb)

theorem mem_foldl_insertDesc :
    ∀ (l acc : List (String × Nat)) (x : String × Nat),
      x ∈ l.foldl (fun acc p => insertDesc p acc) acc ↔ x ∈ acc ∨ x ∈ l := by
  intro l
  induction l with
  | nil => simp
  | cons p t ih =>
    intro acc x
    rw [List.foldl_cons, ih, mem_insertDesc]
    simp only [List.mem_cons]
    tauto

theorem mem_sortDescStable {x : String × Nat} {l : List (String × Nat)} :
    x ∈ sortDescStable l ↔ x ∈ l := by
  rw [sortDescStable, mem_foldl_insertDesc]
  simp

theorem mem_firstCounts {msgs : List String} {kv : String × Nat}
    (h : kv ∈ firstCounts msgs) : kv.1 ∈ msgs ∧ kv.2 = msgs.count kv.1 := by
  rw [firstCounts] at h
  obtain ⟨v, hv, rfl⟩ := List.mem_map.mp h
  exact ⟨mem_dedupFirst.mp hv, rfl⟩

/-- C7: `error_patterns` groups error messages by exact string equality,
counts occurrences, sorts descending by count with ties broken by
first-encountered order, and truncates to the top 10 entries; over
`["Rate limit","Rate limit","Timeout"]` it yields exactly
`[("Rate limit", 2), ("Timeout", 1)]`. -/
theorem claim_C7_error_patterns :
    error_patterns ["Rate limit", "Rate limit", "Timeout"] =
        [("Rate limit", 2), ("Timeout", 1)] ∧
      (∀ msgs, (error_patterns msgs).length ≤ 10) ∧
      (∀ msgs kv, kv ∈ error_patterns msgs → kv.1 ∈ msgs ∧ kv.2 = msgs.count kv.1) ∧
      (∀ msgs, (error_patterns msgs).Pairwise (fun a b =>
        b.2 < a.2 ∨ (b.2 = a.2 ∧ msgs.indexOf a.1 < msgs.indexOf b.1))) := by
  refine ⟨by decide, fun msgs => List.length_take_le _ _, fun msgs kv hkv => ?_,
    fun msgs => ?_⟩
  · exact mem_firstCounts (mem_sortDescStable.mp ((List.take_sublist _ _).subset hkv))
  · apply List.Pairwise.sublist (List.take_sublist _ _)
    rw [sortDescStable]
    exact foldl_insertDesc_pairwise _ (firstCounts msgs) [] List.Pairwise.nil
      (firstCounts_pairwise msgs) (by simp)

/-- Witness for C7: an entry of the computed pattern table carries the exact
occurrence count of its message. -/
theorem claim_C7_witness :
    ("Timeout" : String) ∈ ["Rate limit", "Rate limit", "Timeout"] ∧
      (1 : Nat) = List.count "Timeout" ["Rate limit", "Rate limit", "Timeout"] :=
  claim_C7_error_patterns.2.2.1 ["Rate limit", "Rate limit", "Timeout"]
    ("Timeout", 1) (by decide)

/-! ### C1: percentile chain for `latency_stats` -/

theorem sortAsc_sorted (xs : List ℚ) : List.Sorted (· ≤ ·) (sortAsc xs) :=
  List.sorted_insertionSort _ xs

theorem sortAsc_length (xs : List ℚ) : (sortAsc xs).length = xs.length :=
  (List.perm_insertionSort _ xs).length_eq

/-- The sorted head is a lower bound of the list: `seriesMin` really is the
minimum (justifies modelling `Series.min()` by the sorted head). -/
theorem sortAsc_head_le {xs : List ℚ} {x : ℚ} (hx : x ∈ xs) :
    (sortAsc xs).getD 0 0 ≤ x := by
  have hx' : x ∈ sortAsc xs := ((List.perm_insertionSort _ xs).mem_iff).mpr hx
  obtain ⟨i, hi, hxi⟩ := List.getElem_of_mem hx'
  have h0 : 0 < (sortAsc xs).length := by omega
  rw [List.getD_eq_getElem _ _ h0]
  rcases Nat.eq_zero_or_pos i with rfl | hipos
  · exact le_of_eq (by rw [hxi])
  · have := List.pairwise_iff_getElem.mp (sortAsc_sorted xs) 0 i h0 hi hipos
    rw [hxi] at this
    exact this

theorem natCast_le_rat {a : ℕ} {q : ℚ} : ((a : ℚ) ≤ q) ↔ ((a : ℤ) * q.den ≤ q.num) := by
  rw [Rat.le_def]
  rw [Rat.num_natCast, Rat.den_natCast]
  simp

theorem rat_lt_natCast {a : ℕ} {q : ℚ} : (q < (a : ℚ)) ↔ (q.num < (a : ℤ) * q.den) := by
  rw [Rat.lt_def]
  rw [Rat.num_natCast, Rat.den_natCast]
  simp

theorem natFloor_le {q : ℚ} (hq : 0 ≤ q) : (natFloor q : ℚ) ≤ q := by
  rw [natCast_le_rat, natFloor]
  have hm := Int.toNat_of_nonneg (Rat.num_nonneg.mpr hq)
  conv_rhs => rw [← hm]
  exact_mod_cast Nat.div_mul_le_self q.num.toNat q.den

theorem lt_natFloor_add_one {q : ℚ} (hq : 0 ≤ q) : q < (natFloor q : ℚ) + 1 := by
  have h1 : ((natFloor q : ℚ) + 1) = ((natFloor q + 1 : ℕ) : ℚ) := by push_cast; ring
  rw [h1, rat_lt_natCast, natFloor]
  have hm := Int.toNat_of_nonneg (Rat.num_nonneg.mpr hq)
  conv_lhs => rw [← hm]
  have hd : 0 < q.den := q.den_pos
  have hkey : q.num.toNat < (q.num.toNat / q.den + 1) * q.den := by
    have h2 := Nat.div_add_mod q.num.toNat q.den
    have h3 := Nat.mod_lt q.num.toNat hd
    calc q.num.toNat = q.den * (q.num.toNat / q.den) + q.num.toNat % q.den := h2.symm
      _ < q.den * (q.num.toNat / q.den) + q.den := by omega
      _ = (q.num.toNat / q.den + 1) * q.den := by ring
  exact_mod_cast hkey

theorem natFloor_mono {p q : ℚ} (hp : 0 ≤ p) (hpq : p ≤ q) : natFloor p ≤ natFloor q := by
  have hq : 0 ≤ q := le_trans hp hpq
  have h3 : (natFloor p : ℚ) < (natFloor q : ℚ) + 1 :=
    lt_of_le_of_lt (le_trans (natFloor_le hp) hpq) (lt_natFloor_add_one hq)
  have h5 : natFloor p < natFloor q + 1 := by exact_mod_cast h3
  omega

theorem natFloor_natCast (k : ℕ) : natFloor (k : ℚ) = k := by
  rw [natFloor, Rat.num_natCast, Rat.den_natCast, Int.toNat_natCast]
  exact Nat.div_one k

theorem sorted_getD_mono {ys : List ℚ} (hs : List.Sorted (· ≤ ·) ys) {i j : ℕ}
    (hij : i ≤ j) (hj : j < ys.length) : ys.getD i 0 ≤ ys.getD j 0 := by
  rcases Nat.lt_or_ge i j with h | h
  · have hi : i < ys.length := lt_trans h hj
    rw [List.getD_eq_getElem _ _ hi, List.getD_eq_getElem _ _ hj]
    exact List.pairwise_iff_getElem.mp hs i j hi hj h
  · rw [le_antisymm hij h]

theorem posOf_nonneg {ys : List ℚ} {p : ℚ} (hp : 0 ≤ p) (hlen : 1 ≤ ys.length) :
    0 ≤ posOf ys p := by
  rw [posOf]
  apply mul_nonneg hp
  have h1 : (1 : ℚ) ≤ (ys.length : ℚ) := by exact_mod_cast hlen
  linarith

theorem idxOfPos_le {ys : List ℚ} {p : ℚ} (hp : 0 ≤ p) (hp1 : p ≤ 1)
    (hn : ys ≠ []) : idxOfPos ys p ≤ ys.length - 1 := by
  have hlen : 1 ≤ ys.length := by
    have := List.length_pos.mpr hn
    omega
  have hpos := posOf_nonneg hp hlen
  have hle : posOf ys p ≤ ((ys.length - 1 : ℕ) : ℚ) := by
    rw [posOf, Nat.cast_sub hlen, Nat.cast_one]
    have h1 : (1 : ℚ) ≤ (ys.length : ℚ) := by exact_mod_cast hlen
    calc p * ((ys.length : ℚ) - 1) ≤ 1 * ((ys.length : ℚ) - 1) :=
          mul_le_mul_of_nonneg_right hp1 (by linarith)
      _ = (ys.length : ℚ) - 1 := one_mul _
  rw [idxOfPos]
  have h2 := natFloor_mono hpos hle
  rwa [natFloor_natCast] at h2

theorem interpAt_lower {ys : List ℚ} {p : ℚ} (hs : List.Sorted (· ≤ ·) ys)
    (hp : 0 ≤ p) (hp1 : p ≤ 1) (hn : ys ≠ []) :
    ys.getD (idxOfPos ys p) 0 ≤ interpAt ys p := by
  have hlen : 1 ≤ ys.length := by
    have := List.length_pos.mpr hn
    omega
  have hnn := posOf_nonneg hp hlen
  rw [interpAt]
  by_cases hbr : idxOfPos ys p + 1 < ys.length
  · rw [if_pos hbr]
    have h1 : ((idxOfPos ys p : ℕ) : ℚ) ≤ posOf ys p := by
      rw [idxOfPos]
      exact natFloor_le hnn
    have h2 : ys.getD (idxOfPos ys p) 0 ≤ ys.getD (idxOfPos ys p + 1) 0 :=
      sorted_getD_mono hs (Nat.le_succ _) hbr
    nlinarith
  · rw [if_neg hbr]
    exact sorted_getD_mono hs (idxOfPos_le hp hp1 hn) (by omega)

theorem interpAt_le_getD {ys : List ℚ} {p : ℚ} {j : ℕ} (hs : List.Sorted (· ≤ ·) ys)
    (hp : 0 ≤ p) (hij : idxOfPos ys p < j) (hj : j ≤ ys.length - 1) (hn : ys ≠ []) :
    interpAt ys p ≤ ys.getD j 0 := by
  have hlen : 1 ≤ ys.length := by
    have := List.length_pos.mpr hn
    omega
  rw [interpAt]
  by_cases hbr : idxOfPos ys p + 1 < ys.length
  · rw [if_pos hbr]
    have hjlt : j < ys.length := by omega
    have hnn := posOf_nonneg hp hlen
    have h1 : ((idxOfPos ys p : ℕ) : ℚ) ≤ posOf ys p := by
      rw [idxOfPos]
      exact natFloor_le hnn
    have h2 : posOf ys p < ((idxOfPos ys p : ℕ) : ℚ) + 1 := by
      rw [idxOfPos]
      exact lt_natFloor_add_one hnn
    have hΔ : (0 : ℚ) ≤ ys.getD (idxOfPos ys p + 1) 0 - ys.getD (idxOfPos ys p) 0 := by
      have := sorted_getD_mono hs (Nat.le_succ (idxOfPos ys p)) hbr
      linarith
    have hstep : ys.getD (idxOfPos ys p) 0 +
        (posOf ys p - (idxOfPos ys p : ℚ)) *
          (ys.getD (idxOfPos ys p + 1) 0 - ys.getD (idxOfPos ys p) 0) ≤
        ys.getD (idxOfPos ys p + 1) 0 := by
      nlinarith
    exact le_trans hstep (sorted_getD_mono hs (by omega) hjlt)
  · exfalso
    omega

theorem interpAt_mono {ys : List ℚ} (hs : List.Sorted (· ≤ ·) ys) (hn : ys ≠ [])
    {p q : ℚ} (hp : 0 ≤ p) (hpq : p ≤ q) (hq1 : q ≤ 1) :
    interpAt ys p ≤ interpAt ys q := by
  have hq0 : 0 ≤ q := le_trans hp hpq
  have hp1 : p ≤ 1 := le_trans hpq hq1
  have hlen : 1 ≤ ys.length := by
    have := List.length_pos.mpr hn
    omega
  have hppos := posOf_nonneg hp hlen
  have hple : posOf ys p ≤ posOf ys q := by
    rw [posOf, posOf]
    apply mul_le_mul_of_nonneg_right hpq
    have h1 : (1 : ℚ) ≤ (ys.length : ℚ) := by exact_mod_cast hlen
    linarith
  have hij : idxOfPos ys p ≤ idxOfPos ys q := by
    rw [idxOfPos, idxOfPos]
    exact natFloor_mono hppos hple
  rcases Nat.lt_or_ge (idxOfPos ys p) (idxOfPos ys q) with hlt | hge
  · exact le_trans (interpAt_le_getD hs hp hlt (idxOfPos_le hq0 hq1 hn) hn)
      (interpAt_lower hs hq0 hq1 hn)
  · have heq : idxOfPos ys q = idxOfPos ys p := le_antisymm (by omega) hij
    rw [interpAt, interpAt, heq]
    by_cases hbr : idxOfPos ys p + 1 < ys.length
    · rw [if_pos hbr, if_pos hbr]
      have hΔ : (0 : ℚ) ≤ ys.getD (idxOfPos ys p + 1) 0 - ys.getD (idxOfPos ys p) 0 := by
        have := sorted_getD_mono hs (Nat.le_succ (idxOfPos ys p)) hbr
        linarith
      nlinarith
    · rw [if_neg hbr, if_neg hbr]

theorem interpAt_zero {ys : List ℚ} (hn : ys ≠ []) : interpAt ys 0 = ys.getD 0 0 := by
  have hlen : 1 ≤ ys.length := by
    have := List.length_pos.mpr hn
    omega
  have hpos : posOf ys 0 = 0 := by rw [posOf]; ring
  have hidx : idxOfPos ys 0 = 0 := by
    rw [idxOfPos, hpos, show (0 : ℚ) = ((0 : ℕ) : ℚ) from by norm_num,
      natFloor_natCast]
  rw [interpAt, hidx, hpos]
  by_cases hbr : 0 + 1 < ys.length
  · rw [if_pos hbr]
    push_cast
    ring
  · rw [if_neg hbr]
    have h1 : ys.length = 1 := by omega
    rw [h1]

theorem interpAt_one {ys : List ℚ} (hn : ys ≠ []) :
    interpAt ys 1 = ys.getD (ys.length - 1) 0 := by
  have hlen : 1 ≤ ys.length := by
    have := List.length_pos.mpr hn
    omega
  have hpos : posOf ys 1 = ((ys.length - 1 : ℕ) : ℚ) := by
    rw [posOf, one_mul, Nat.cast_sub hlen, Nat.cast_one]
  have hidx : idxOfPos ys 1 = ys.length - 1 := by
    rw [idxOfPos, hpos, natFloor_natCast]
  rw [interpAt, hidx]
  rw [if_neg (by omega)]

/-- C1: for every non-empty numeric latency input (after dropping missing
values) the `latency_stats` mapping satisfies
`min_ms ≤ p50_ms ≤ p75_ms ≤ p90_ms ≤ p95_ms ≤ p99_ms ≤ max_ms`, with
percentiles computed by linear interpolation between order statistics at
fractions 0.50/0.75/0.90/0.95/0.99. -/
theorem claim_C1_latency_percentile_chain (stdFn : List ℚ → Option ℚ)
    (xs : List ℚ) (hxs : xs ≠ []) :
    (latencyStats stdFn xs).min_ms ≤ (latencyStats stdFn xs).p50_ms ∧
      (latencyStats stdFn xs).p50_ms ≤ (latencyStats stdFn xs).p75_ms ∧
      (latencyStats stdFn xs).p75_ms ≤ (latencyStats stdFn xs).p90_ms ∧
      (latencyStats stdFn xs).p90_ms ≤ (latencyStats stdFn xs).p95_ms ∧
      (latencyStats stdFn xs).p95_ms ≤ (latencyStats stdFn xs).p99_ms ∧
      (latencyStats stdFn xs).p99_ms ≤ (latencyStats stdFn xs).max_ms := by
  have hys : sortAsc xs ≠ [] := by
    intro h
    apply hxs
    have h2 := sortAsc_length xs
    rw [h] at h2
    exact List.length_eq_zero.mp h2.symm
  have hs := sortAsc_sorted xs
  simp only [latencyStats, quantileLinear]
  refine ⟨?_, ?_, ?_, ?_, ?_, ?_⟩
  · rw [← interpAt_zero hys]
    exact interpAt_mono hs hys (by norm_num) (by norm_num) (by norm_num)
  · exact interpAt_mono hs hys (by norm_num) (by norm_num) (by norm_num)
  · exact interpAt_mono hs hys (by norm_num) (by norm_num) (by norm_num)
  · exact interpAt_mono hs hys (by norm_num) (by norm_num) (by norm_num)
  · exact interpAt_mono hs hys (by norm_num) (by norm_num) (by norm_num)
  · rw [← interpAt_one hys]
    exact interpAt_mono hs hys (by norm_num) (by norm_num) (by norm_num)

/-- Witness for C1 on the concrete series `[3, 1, 2]`. -/
theorem claim_C1_witness :
    (([3, 1, 2] : List ℚ) ≠ []) ∧
      ((latencyStats (fun _ => none) [3, 1, 2]).min_ms ≤
          (latencyStats (fun _ => none) [3, 1, 2]).p50_ms ∧
        (latencyStats (fun _ => none) [3, 1, 2]).p50_ms ≤
          (latencyStats (fun _ => none) [3, 1, 2]).p75_ms ∧
        (latencyStats (fun _ => none) [3, 1, 2]).p75_ms ≤
          (latencyStats (fun _ => none) [3, 1, 2]).p90_ms ∧
        (latencyStats (fun _ => none) [3, 1, 2]).p90_ms ≤
          (latencyStats (fun _ => none) [3, 1, 2]).p95_ms ∧
        (latencyStats (fun _ => none) [3, 1, 2]).p95_ms ≤
          (latencyStats (fun _ => none) [3, 1, 2]).p99_ms ∧
        (latencyStats (fun _ => none) [3, 1, 2]).p99_ms ≤
          (latencyStats (fun _ => none) [3, 1, 2]).max_ms) :=
  ⟨List.cons_ne_nil _ _,
    claim_C1_latency_percentile_chain (fun _ => none) [3, 1, 2] (List.cons_ne_nil _ _)⟩

/-! ### C6: the prompt template engine -/

theorem replFuel_congr (pat rep : List Char) (hpat : pat ≠ []) :
    ∀ n m (s : List Char), s.length ≤ n → s.length ≤ m →
      replFuel pat rep n s = replFuel pat rep m s := by
  intro n
  induction n with
  | zero =>
    intro m s hn _
    have hs : s = [] := by
      rw [← List.length_eq_zero]
      omega
    subst hs
    cases m <;> rfl
  | succ n ih =>
    intro m s hn hm
    cases s with
    | nil => cases m <;> rfl
    | cons c rest =>
      rw [List.length_cons] at hn hm
      have hplen : 0 < pat.length := List.length_pos.mpr hpat
      cases m with
      | zero => omega
      | succ m =>
        simp only [replFuel]
        by_cases hpre : pat.isPrefixOf (c :: rest) = true
        · rw [if_pos hpre, if_pos hpre]
          congr 1
          apply ih
          · rw [List.length_drop, List.length_cons]
            omega
          · rw [List.length_drop, List.length_cons]
            omega
        · rw [if_neg hpre, if_neg hpre]
          congr 1
          apply ih <;> omega

theorem replaceAll_pos (pat rep s : List Char) (hpat : pat ≠ []) (hs : s ≠ [])
    (h : pat.isPrefixOf s = true) :
    replaceAll pat rep s = rep ++ replaceAll pat rep (s.drop pat.length) := by
  cases s with
  | nil => exact absurd rfl hs
  | cons c t =>
    have hplen : 0 < pat.length := List.length_pos.mpr hpat
    simp only [replaceAll, List.length_cons, replFuel]
    rw [if_pos h]
    congr 1
    apply replFuel_congr pat rep hpat
    · rw [List.length_drop, List.length_cons]
      omega
    · exact le_refl _

theorem replaceAll_neg (pat rep : List Char) {c : Char} {t : List Char}
    (h : pat.isPrefixOf (c :: t) = false) :
    replaceAll pat rep (c :: t) = c :: replaceAll pat rep t := by
  simp only [replaceAll, List.length_cons, replFuel]
  rw [if_neg (by rw [h]; exact Bool.false_ne_true)]

theorem isPrefixOf_append_self (pat t : List Char) : pat.isPrefixOf (pat ++ t) = true := by
  induction pat with
  | nil => simp [List.isPrefixOf]
  | cons a as ih => simp [List.isPrefixOf, ih]

theorem isPrefixOf_cons_false {pt : List Char} {c : Char} {t : List Char}
    (hc : c ≠ '{') : ('{' :: pt).isPrefixOf (c :: t) = false := by
  simp only [List.isPrefixOf]
  rw [show ('{' == c) = false from beq_eq_false_iff_ne.mpr (fun h => hc h.symm),
    Bool.false_and]

theorem keys_noMatch : ∀ (k k' t : List Char), keyOK k = true → keyOK k' = true →
    k ≠ k' → (k ++ ['}']).isPrefixOf (k' ++ '}' :: t) = false := by
  intro k
  induction k with
  | nil =>
    intro k' t _ hk' hne
    cases k' with
    | nil => exact absurd rfl hne
    | cons c k'' =>
      have hc : c ≠ '}' := by
        rw [keyOK, List.all_cons, Bool.and_eq_true] at hk'
        have h1 := hk'.1
        rw [Bool.and_eq_true, bne_iff_ne, bne_iff_ne] at h1
        exact h1.2
      simp only [List.nil_append, List.cons_append, List.isPrefixOf]
      rw [show ('}' == c) = false from beq_eq_false_iff_ne.mpr (fun h => hc h.symm),
        Bool.false_and]
  | cons a k2 ih =>
    intro k' t hk hk' hne
    rw [keyOK, List.all_cons, Bool.and_eq_true] at hk
    obtain ⟨ha, hk2⟩ := hk
    rw [Bool.and_eq_true, bne_iff_ne, bne_iff_ne] at ha
    cases k' with
    | nil =>
      simp only [List.nil_append, List.cons_append, List.isPrefixOf]
      rw [show (a == '}') = false from beq_eq_false_iff_ne.mpr ha.2, Bool.false_and]
    | cons c k'2 =>
      rw [keyOK, List.all_cons, Bool.and_eq_true] at hk'
      obtain ⟨-, hk'2⟩ := hk'
      simp only [List.cons_append, List.isPrefixOf]
      by_cases hac : a = c
      · subst hac
        rw [show (a == a) = true from by simp, Bool.true_and]
        exact ih k'2 t hk2 hk'2 (fun h => hne (by rw [h]))
      · rw [show (a == c) = false from beq_eq_false_iff_ne.mpr hac, Bool.false_and]

theorem replaceAll_lit_append (pt rep : List Char) :
    ∀ (s t : List Char), litOK s = true →
      replaceAll ('{' :: pt) rep (s ++ t) = s ++ replaceAll ('{' :: pt) rep t := by
  intro s
  induction s with
  | nil =>
    intro t _
    rfl
  | cons c s' ih =>
    intro t hOK
    rw [litOK, List.all_cons, Bool.and_eq_true] at hOK
    obtain ⟨hc', hs'⟩ := hOK
    have hc : c ≠ '{' := by
      rw [bne_iff_ne] at hc'
      exact hc'
    rw [List.cons_append, replaceAll_neg _ _ (isPrefixOf_cons_false hc), ih t hs',
      List.cons_append]

theorem renderTemplate_cons (p : TPiece) (ps : List TPiece) :
    renderTemplate (p :: ps) = renderPiece p ++ renderTemplate ps := by
  simp [renderTemplate]

theorem replaceAll_renderTemplate (k rep : List Char) (hk : keyOK k = true) :
    ∀ ps : List TPiece,
      (∀ s, TPiece.lit s ∈ ps → litOK s = true) →
      (∀ k', TPiece.hole k' ∈ ps → keyOK k' = true) →
      replaceAll ('{' :: (k ++ ['}'])) rep (renderTemplate ps) =
        renderTemplate (ps.map (stepP k rep)) := by
  intro ps
  induction ps with
  | nil =>
    intro _ _
    rfl
  | cons p ps' ih =>
    intro hlit hhole
    have hlit' : ∀ s, TPiece.lit s ∈ ps' → litOK s = true :=
      fun s hs => hlit s (List.mem_cons_of_mem p hs)
    have hhole' : ∀ k', TPiece.hole k' ∈ ps' → keyOK k' = true :=
      fun k' hs => hhole k' (List.mem_cons_of_mem p hs)
    cases p with
    | lit s =>
      have hOK := hlit s (List.mem_cons_self _ _)
      show replaceAll ('{' :: (k ++ ['}'])) rep (s ++ renderTemplate ps') =
        renderPiece (stepP k rep (TPiece.lit s)) ++
          renderTemplate (List.map (stepP k rep) ps')
      rw [replaceAll_lit_append _ _ s _ hOK, ih hlit' hhole']
      rfl
    | hole k' =>
      have hk' := hhole k' (List.mem_cons_self _ _)
      by_cases hkk : k' = k
      · subst hkk
        show replaceAll ('{' :: (k' ++ ['}'])) rep
            (('{' :: (k' ++ ['}'])) ++ renderTemplate ps') =
          renderPiece (stepP k' rep (TPiece.hole k')) ++
            renderTemplate (List.map (stepP k' rep) ps')
        rw [replaceAll_pos _ _ _ (List.cons_ne_nil _ _) (by simp)
            (isPrefixOf_append_self _ _), List.drop_left, ih hlit' hhole']
        simp [stepP, renderPiece]
      · show replaceAll ('{' :: (k ++ ['}'])) rep
            ('{' :: ((k' ++ ['}']) ++ renderTemplate ps')) =
          renderPiece (stepP k rep (TPiece.hole k')) ++
            renderTemplate (List.map (stepP k rep) ps')
        have hnm : ('{' :: (k ++ ['}'])).isPrefixOf
            ('{' :: ((k' ++ ['}']) ++ renderTemplate ps')) = false := by
          have h1 : (k' ++ ['}']) ++ renderTemplate ps' =
              k' ++ '}' :: renderTemplate ps' := by
            rw [List.append_assoc]
            rfl
          rw [h1]
          simp only [List.isPrefixOf, beq_self_eq_true, Bool.true_and]
          exact keys_noMatch k k' _ hk hk' (fun h => hkk (by rw [h]))
        rw [replaceAll_neg _ _ hnm,
          replaceAll_lit_append _ _ (k' ++ ['}']) _ ?hlitok, ih hlit' hhole']
        case hlitok =>
          have hall : ∀ c ∈ k', (c != '{') = true := by
            intro c hc
            have h2 := List.all_eq_true.mp hk' c hc
            rw [Bool.and_eq_true] at h2
            exact h2.1
          rw [litOK, List.all_append, Bool.and_eq_true]
          exact ⟨List.all_eq_true.mpr hall, by decide⟩
        simp [stepP, hkk, renderPiece]

theorem substTemplate_cons (ctx : List (List Char × List Char)) (p : TPiece)
    (ps : List TPiece) :
    substTemplate ctx (p :: ps) =
      (match p with
       | TPiece.lit s => s
       | TPiece.hole k =>
         match List.lookup k ctx with
         | some v => v
         | none => '{' :: k ++ ['}']) ++ substTemplate ctx ps := by
  simp [substTemplate]

theorem substTemplate_nil_ctx : ∀ ps : List TPiece, substTemplate [] ps = renderTemplate ps := by
  intro ps
  induction ps with
  | nil => rfl
  | cons p ps' ih =>
    rw [substTemplate_cons, renderTemplate_cons, ih]
    cases p with
    | lit s => rfl
    | hole k => rfl

theorem substTemplate_step (k v : List Char) :
    ∀ (ctx : List (List Char × List Char)) (ps : List TPiece),
      substTemplate ctx (ps.map (stepP k v)) = substTemplate ((k, v) :: ctx) ps := by
  intro ctx ps
  induction ps with
  | nil => rfl
  | cons p ps' ih =>
    rw [List.map_cons, substTemplate_cons, substTemplate_cons, ih]
    congr 1
    cases p with
    | lit s => rfl
    | hole k' =>
      by_cases hkk : k' = k
      · subst hkk
        simp [stepP, List.lookup, renderPiece]
      · simp only [stepP, if_neg hkk, List.lookup,
          show (k' == k) = false from beq_eq_false_iff_ne.mpr hkk]

theorem replaceAll_of_not_hasSubstring (pat rep : List Char) :
    ∀ s, hasSubstring pat s = false → replaceAll pat rep s = s := by
  intro s
  induction s with
  | nil =>
    intro _
    rfl
  | cons c t ih =>
    intro h
    simp only [hasSubstring, Bool.or_eq_false_iff] at h
    rw [replaceAll_neg _ _ h.1, ih h.2]

theorem seqSubst_renderTemplate :
    ∀ (ctx : List (List Char × List Char)) (ps : List TPiece),
      (∀ s, TPiece.lit s ∈ ps → litOK s = true) →
      (∀ k', TPiece.hole k' ∈ ps → keyOK k' = true) →
      (∀ kv ∈ ctx, keyOK kv.1 = true) →
      (∀ kv ∈ ctx, TPiece.hole kv.1 ∈ ps → litOK kv.2 = true) →
      seqSubst ctx (renderTemplate ps) = substTemplate ctx ps := by
  intro ctx
  induction ctx with
  | nil =>
    intro ps _ _ _ _
    exact (substTemplate_nil_ctx ps).symm
  | cons kv ctx' ih =>
    intro ps hlit hhole hckey hcval
    obtain ⟨k, v⟩ := kv
    have hk : keyOK k = true := hckey (k, v) (List.mem_cons_self _ _)
    show seqSubst ctx'
        (replaceAll ('{' :: k ++ ['}']) v (renderTemplate ps)) = _
    have hrw : replaceAll ('{' :: k ++ ['}']) v (renderTemplate ps) =
        renderTemplate (ps.map (stepP k v)) :=
      replaceAll_renderTemplate k v hk ps hlit hhole
    rw [hrw, ← substTemplate_step k v ctx' ps]
    apply ih
    · intro s hs
      rw [List.mem_map] at hs
      obtain ⟨p, hp, hstep⟩ := hs
      cases p with
      | lit s' =>
        simp only [stepP] at hstep
        cases hstep
        exact hlit _ hp
      | hole k' =>
        simp only [stepP] at hstep
        by_cases hkk : k' = k
        · rw [if_pos hkk] at hstep
          cases hstep
          rw [hkk] at hp
          exact hcval (k, v) (List.mem_cons_self _ _) hp
        · rw [if_neg hkk] at hstep
          cases hstep
    · intro k'' hs
      rw [List.mem_map] at hs
      obtain ⟨p, hp, hstep⟩ := hs
      cases p with
      | lit s' =>
        simp only [stepP] at hstep
        cases hstep
      | hole k' =>
        simp only [stepP] at hstep
        by_cases hkk : k' = k
        · rw [if_pos hkk] at hstep
          cases hstep
        · rw [if_neg hkk] at hstep
          cases hstep
          exact hhole _ hp
    · intro kv2 h2
      exact hckey kv2 (List.mem_cons_of_mem _ h2)
    · intro kv2 h2 hhol
      apply hcval kv2 (List.mem_cons_of_mem _ h2)
      rw [List.mem_map] at hhol
      obtain ⟨p, hp, hstep⟩ := hhol
      cases p with
      | lit s' =>
        simp only [stepP] at hstep
        cases hstep
      | hole k' =>
        simp only [stepP] at hstep
        by_cases hkk : k' = k
        · rw [if_pos hkk] at hstep
          cases hstep
        · rw [if_neg hkk] at hstep
          cases hstep
          exact hp

theorem format_prompt_eq_seqSubst (template : String) (ex : List (String × Val)) :
    _format_prompt template ex = String.mk (seqSubst (flatPairs ex) template.data) := by
  simp only [_format_prompt, seqSubst, flatPairs]
  rw [List.foldl_map]
  congr 1
  apply List.foldl_ext
  intro acc kv _
  dsimp only
  cases hb : hasSubstring ('{' :: kv.1.data ++ ['}']) acc with
  | true => simp
  | false =>
    rw [if_neg (by exact Bool.false_ne_true),
      replaceAll_of_not_hasSubstring _ _ acc hb]

/-- C6 (amended): the formatter performs the replacements sequentially, one
flattened-context entry after the other, so an inserted value is itself
subject to the later keys' replacement.  Whenever the template decomposes
into brace-free literal segments and `{key}` placeholders with brace-free
keys, and no replacement text of a key that occurs as a placeholder opens a
brace, this sequential process agrees with simultaneous substitution as the
claim describes it: every placeholder whose key resolves in the flattened
context is replaced by the string form of its value, and every unresolvable
placeholder stays verbatim; no error is possible (the function is total). -/
theorem claim_C6_amended_template_substitution (ps : List TPiece)
    (ex : List (String × Val))
    (hlit : ∀ s, TPiece.lit s ∈ ps → litOK s = true)
    (hhole : ∀ k, TPiece.hole k ∈ ps → keyOK k = true)
    (hckey : ∀ kv ∈ flatPairs ex, keyOK kv.1 = true)
    (hcval : ∀ kv ∈ flatPairs ex, TPiece.hole kv.1 ∈ ps → litOK kv.2 = true) :
    _format_prompt (String.mk (renderTemplate ps)) ex =
      String.mk (substTemplate (flatPairs ex) ps) := by
  rw [format_prompt_eq_seqSubst]
  congr 1
  exact seqSubst_renderTemplate (flatPairs ex) ps hlit hhole hckey hcval

/-- Counterexample to C6 as stated: with example
`{input: "{output}", output: "A"}` the template `"{input}"` does not come
out as the string form of the `input` value (which is `"{output}"`): the
sequential replacement rewrites the inserted text again and yields `"A"`. -/
theorem claim_C6_counterexample :
    _format_prompt "\x7binput\x7d"
        [("input", Val.vstr "\x7boutput\x7d"), ("output", Val.vstr "A")] = "A" ∧
      strForm (Val.vstr "\x7boutput\x7d") = "\x7boutput\x7d" ∧
      ("A" : String) ≠ "\x7boutput\x7d" :=
  ⟨by decide, by decide, by decide⟩

/-- Witness for C6 on the spec's dotted-key example: template
`"{input.question}"` with input `{question: "Q"}` yields exactly `"Q"`. -/
theorem claim_C6_witness :
    _format_prompt "\x7binput.question\x7d"
      [("input", Val.vdict [("question", Val.vstr "Q")])] = "Q" := by
  have h := claim_C6_amended_template_substitution
    [TPiece.hole ("input.question".data)]
    [("input", Val.vdict [("question", Val.vstr "Q")])]
    (by intro s hs; simp at hs)
    (by intro k hk; simp at hk; subst hk; decide)
    (by decide)
    (by decide)
  have e1 : String.mk (renderTemplate [TPiece.hole ("input.question".data)]) =
      "\x7binput.question\x7d" := by decide
  have e2 : String.mk (substTemplate
      (flatPairs [("input", Val.vdict [("question", Val.vstr "Q")])])
      [TPiece.hole ("input.question".data)]) = "Q" := by decide
  rw [e1] at h
  rw [h, e2]
